import Mathlib

/-!
Shallow embedding of the MIR-project indexing and ranking engine
(`src/Logic/core/indexer/index.py`, `metadata_index.py`,
`src/Logic/core/utility/scorer.py`, `src/Logic/core/search.py`).

Modelling conventions:
* Python dicts are insertion-ordered association lists; `updateA` is
  `d[k] = v` (replace in place, else append), `popA` is `d.pop(k)`, and
  `pyDictEqB` is Python `==` on dicts (order-insensitive).
* Python floats are modelled as `ℚ`; `math.log` is passed in as an explicit
  function parameter `lg : ℚ → ℚ`.
* A raised Python exception is an `Except PyErr` value.
* Textual field entries are modelled post-`split()`: each entry of
  `stars`/`genres`/`summaries` is the list of whitespace tokens of the
  corresponding Python string.
* Python `set` iteration is modelled as first-occurrence `List.dedup`; no
  claim here depends on the iteration order of a set.
-/

namespace MIR

/-- Python string comparison on one pair of code points. -/
def pyCharLt (a c : Char) : Bool :=
  a.val < c.val

/-- Lexicographic comparison of code-point lists, as Python compares strings. -/
def pyStrLtL : List Char → List Char → Bool
  | [], [] => false
  | [], _ :: _ => true
  | _ :: _, [] => false
  | a :: as, c :: cs =>
    if pyCharLt a c then true
    else if pyCharLt c a then false
    else pyStrLtL as cs

/-- Python `<` on strings. -/
def pyStrLt (a c : String) : Bool :=
  pyStrLtL a.data c.data

/-- Dict lookup `d.get(k)` on an association list. -/
def lookupA {β : Type} (l : List (String × β)) (k : String) : Option β :=
  (l.find? (fun p => p.1 = k)).map (·.2)

/-- Dict write `d[k] = v`: replace the entry in place if `k` is a key,
else append it, as a Python dict does. -/
def updateA {β : Type} (l : List (String × β)) (k : String) (v : β) : List (String × β) :=
  match l with
  | [] => [(k, v)]
  | p :: rest => if p.1 = k then (k, v) :: rest else p :: updateA rest k v

/-- Dict removal `d.pop(k)`. -/
def popA {β : Type} (l : List (String × β)) (k : String) : List (String × β) :=
  match l with
  | [] => []
  | p :: rest => if p.1 = k then rest else p :: popA rest k

/-- A preprocessed movie record. An absent (`None`) field is `none`; a present
field is the list of its entries, each entry given by its whitespace tokens. -/
structure Document where
  id : String
  stars : Option (List (List String))
  genres : Option (List (List String))
  summaries : Option (List (List String))
deriving DecidableEq

/-- `{term: {document_id: tf}}`, one per indexable field. -/
abbrev FieldIndex := List (String × List (String × Nat))

/-- `Index.index`: the DOCUMENTS store plus the three field inverted indexes. -/
structure IndexState where
  documents : List (String × Document)
  stars : FieldIndex
  genres : FieldIndex
  summaries : FieldIndex
deriving DecidableEq

/-- `stars_words` / `genres_words` / `summaries_words`: all tokens of all
entries concatenated; the truthiness guard `if stars:` yields `[]` for both
`None` and the empty list, which coincides with flattening. -/
def fieldWords (entries : Option (List (List String))) : List String :=
  match entries with
  | none => []
  | some es => es.flatten

/-- One document's contribution to a field index:
`for word in set(words):` either create `{word: {doc_id: count}}` or update
`index[word][doc_id] = words.count(word)`. -/
def indexFieldStep (ix : FieldIndex) (docId : String) (ws : List String) : FieldIndex :=
  ws.dedup.foldl
    (fun ix w => updateA ix w (updateA ((lookupA ix w).getD []) docId (ws.count w))) ix

/-- The document loop shared by `index_stars`, `index_genres`, `index_summaries`. -/
def indexField (fieldOf : Document → Option (List (List String))) :
    List Document → FieldIndex → FieldIndex
  | [], ix => ix
  | doc :: rest, ix =>
    indexField fieldOf rest (indexFieldStep ix doc.id (fieldWords (fieldOf doc)))

/-- `Index.index_stars`. -/
def index_stars (docs : List Document) : FieldIndex :=
  indexField (·.stars) docs []

/-- `Index.index_genres`. -/
def index_genres (docs : List Document) : FieldIndex :=
  indexField (·.genres) docs []

/-- `Index.index_summaries`. -/
def index_summaries (docs : List Document) : FieldIndex :=
  indexField (·.summaries) docs []

/-- `Index.index_documents`: `{doc['id']: doc}` in corpus order. -/
def index_documents (docs : List Document) : List (String × Document) :=
  docs.foldl (fun acc doc => updateA acc doc.id doc) []

/-- `Index.__init__`: build all four indexes from the corpus. -/
def buildIndex (docs : List Document) : IndexState :=
  { documents := index_documents docs
    stars := index_stars docs
    genres := index_genres docs
    summaries := index_summaries docs }

/-- Python exceptions that the embedded code can raise. -/
inductive PyErr
  | typeError
  | keyError
  | zeroDivision
deriving DecidableEq

/-- `{x: words.count(x) for x in set(words)}` built by the tf loops of
`add_document_to_index`. -/
def tfDict (ws : List String) : List (String × Nat) :=
  ws.dedup.map (fun w => (w, ws.count w))

/-- One `(term, tf)` insertion of `add_document_to_index`: create the term key,
add the document entry, or increment an existing entry. -/
def addPosting (ix : FieldIndex) (docId : String) (w : String) (c : Nat) : FieldIndex :=
  match lookupA ix w with
  | none => updateA ix w [(docId, c)]
  | some ps =>
    match lookupA ps docId with
    | none => updateA ix w (updateA ps docId c)
    | some c0 => updateA ix w (updateA ps docId (c0 + c))

/-- The per-field loop of `add_document_to_index`. -/
def addFieldPostings (ix : FieldIndex) (docId : String) (ws : List String) : FieldIndex :=
  (tfDict ws).foldl (fun ix p => addPosting ix docId p.1 p.2) ix

/-- `Index.add_document_to_index`. Iterating over a `None` field raises
`TypeError` in Python; the model collapses that mid-mutation failure to an
error value. -/
def add_document_to_index (ix : IndexState) (doc : Document) : Except PyErr IndexState :=
  match doc.genres, doc.stars, doc.summaries with
  | some gs, some ss, some sums =>
    .ok { documents := updateA ix.documents doc.id doc
          genres := addFieldPostings ix.genres doc.id gs.flatten
          stars := addFieldPostings ix.stars doc.id ss.flatten
          summaries := addFieldPostings ix.summaries doc.id sums.flatten }
  | _, _, _ => .error .typeError

/-- The per-field removal loop of `remove_document_from_index`:
`for term in index: if doc_id in index[term]: index[term].pop(doc_id)`.
Note that a term key whose postings become empty is never deleted. -/
def removeFromField (ix : FieldIndex) (docId : String) : FieldIndex :=
  ix.map (fun p => if (lookupA p.2 docId).isSome then (p.1, popA p.2 docId) else p)

/-- `Index.remove_document_from_index`. -/
def remove_document_from_index (ix : IndexState) (docId : String) : IndexState :=
  { documents :=
      if (lookupA ix.documents docId).isSome then popA ix.documents docId else ix.documents
    stars := removeFromField ix.stars docId
    genres := removeFromField ix.genres docId
    summaries := removeFromField ix.summaries docId }

/-- Python `==` on a string-keyed dict: the same keys with equal values,
regardless of insertion order. -/
def pyDictEqB {β : Type} [DecidableEq β] (a c : List (String × β)) : Bool :=
  a.all (fun p => lookupA c p.1 = some p.2) && c.all (fun p => lookupA a p.1 = some p.2)

/-- Python `==` on a `{term: {doc_id: tf}}` dict (nested dict equality). -/
def pyFieldIndexEqB (a c : FieldIndex) : Bool :=
  (a.all fun p =>
    match lookupA c p.1 with
    | some q => pyDictEqB p.2 q
    | none => false) &&
  (c.all fun p =>
    match lookupA a p.1 with
    | some q => pyDictEqB p.2 q
    | none => false)

/-- Python `==` on the whole `Index.index` structure, as
`check_add_remove_is_correct` compares it. -/
def pyIndexStateEqB (a c : IndexState) : Bool :=
  pyDictEqB a.documents c.documents &&
  pyFieldIndexEqB a.stars c.stars &&
  pyFieldIndexEqB a.genres c.genres &&
  pyFieldIndexEqB a.summaries c.summaries

/-- A document whose summary introduces a term absent from the (empty) corpus. -/
def c1Doc : Document :=
  { id := "1", stars := some [], genres := some [], summaries := some [["good"]] }

/-- The three indexable fields. -/
inductive Field
  | stars
  | genres
  | summaries
deriving DecidableEq

/-- The `index_type` string naming a field. -/
def fieldName : Field → String
  | .stars => "stars"
  | .genres => "genres"
  | .summaries => "summaries"

/-- The field inverted index of an `IndexState`. -/
def fieldIndexOf (ix : IndexState) : Field → FieldIndex
  | .stars => ix.stars
  | .genres => ix.genres
  | .summaries => ix.summaries

/-- The raw field entries of a document. -/
def fieldEntriesOf (d : Document) : Field → Option (List (List String))
  | .stars => d.stars
  | .genres => d.genres
  | .summaries => d.summaries

/-- What a call to `get_posting_list` can produce: a list of keys, the implicit
Python `None` of a fall-through, or a raised invalid-request error (present in
the type so that the spec behavior is statable; no code path produces it). -/
inductive PostingResult
  | ids (l : List String)
  | pyNone
  | invalidRequestError
deriving DecidableEq

/-- `self.index[field][word].keys()` under the bare `except: return []`:
a missing term key raises `KeyError`, which is swallowed into `[]`. -/
def postingKeysOr (ix : FieldIndex) (w : String) : PostingResult :=
  match lookupA ix w with
  | some ps => .ids (ps.map (·.1))
  | none => .ids []

/-- The key list of a document record dict, as `.keys()` returns it in the
`documents` branch of `get_posting_list`. -/
def documentRecordKeys : List String :=
  ["id", "stars", "genres", "summaries"]

/-- `Index.get_posting_list`. An `index_type` matching no branch falls off the
end of the `try` and returns Python `None`; no branch raises to the caller. -/
def get_posting_list (ix : IndexState) (word : String) (index_type : String) : PostingResult :=
  if index_type = "documents" then
    match lookupA ix.documents word with
    | some _ => .ids documentRecordKeys
    | none => .ids []
  else if index_type = "stars" then postingKeysOr ix.stars word
  else if index_type = "genres" then postingKeysOr ix.genres word
  else if index_type = "summaries" then postingKeysOr ix.summaries word
  else .pyNone

/-- `Scorer.get_list_of_documents`: ids of documents holding at least one
query term; `list(set(...))` is modelled as first-occurrence `dedup`. -/
def get_list_of_documents (ix : FieldIndex) (query : List String) : List String :=
  (query.foldl (fun acc t => acc ++ ((lookupA ix t).getD []).map (·.1)) []).dedup

/-- `Scorer.get_idf`. The source computes `df = len(...)` and then
`math.log(self.N / df)`; `df = 0` raises `ZeroDivisionError` before the log.
(The `self.idf` cache is never written by the source, so it is always empty
and is omitted here.) -/
def get_idf (lg : ℚ → ℚ) (ix : FieldIndex) (N : ℚ) (term : String) : Except PyErr ℚ :=
  let df : Nat := ((lookupA ix term).getD []).length
  if df = 0 then .error .zeroDivision else .ok (lg (N / df))

/-- `Scorer.get_query_tfs`: `{term: query.count(term) for term in query}`. -/
def get_query_tfs (query : List String) : List (String × Nat) :=
  query.dedup.map (fun t => (t, query.count t))

/-- One SMART weighting code, three characters: term-frequency component,
idf component, normalization component. -/
structure WeightScheme where
  tfComp : Char
  idfComp : Char
  normComp : Char
deriving DecidableEq

/-- `np.dot` on equal-length vectors (trailing elements of a longer vector are
never produced by the embedded code). -/
def dotQ : List ℚ → List ℚ → ℚ
  | a :: as, c :: cs => a * c + dotQ as cs
  | _, _ => 0

/-- `idfs = {term: self.get_idf(term) for term in query}`: the first term with
`df = 0` raises out of the whole computation. -/
def vsmIdfs (lg : ℚ → ℚ) (ix : FieldIndex) (N : ℚ) : List String → Except PyErr (List (String × ℚ))
  | [] => .ok []
  | t :: rest => do
    let v ← get_idf lg ix N t
    let r ← vsmIdfs lg ix N rest
    .ok ((t, v) :: r)

/-- One query-side weight: `term_tf`, optionally `1 + log(tf)`, times
`term_idf` (`1` unless the idf component is `t`). -/
def vsmQueryTermWeight (lg : ℚ → ℚ) (m : WeightScheme) (idf : ℚ) (tf : Nat) : ℚ :=
  let t : ℚ := if m.tfComp = 'l' then 1 + lg tf else tf
  let i : ℚ := if m.idfComp = 't' then idf else 1
  i * t

/-- One document-side weight (`doc_tf * doc_idf` in the source). -/
def vsmDocTermWeight (lg : ℚ → ℚ) (m : WeightScheme) (idf : ℚ) (tf : Nat) : ℚ :=
  let t : ℚ := if m.tfComp = 'l' then 1 + lg tf else tf
  let i : ℚ := if m.idfComp = 't' then idf else 1
  t * i

/-- The `query_scores` vector, including the `c` step of the source, which
computes `weight = np.dot(query_scores, query_scores)` — the squared Euclidean
norm — and multiplies the vector by it. -/
def vsmQueryVector (lg : ℚ → ℚ) (qm : WeightScheme) (idfs : List (String × ℚ))
    (qtfs : List (String × Nat)) (query : List String) : List ℚ :=
  let raw := query.map
    (fun t => vsmQueryTermWeight lg qm ((lookupA idfs t).getD 0) ((lookupA qtfs t).getD 0))
  if qm.normComp = 'c' then raw.map (fun x => dotQ raw raw * x) else raw

/-- `query_score = {term: query_scores[i]}` built positionally. -/
def assocOfZip (ks : List String) (vs : List ℚ) : List (String × ℚ) :=
  (ks.zip vs).foldl (fun acc p => updateA acc p.1 p.2) []

/-- The `doc_scores` vector before normalization. `self.index[term][doc]` is a
plain subscript: a query term missing from the index, or present but missing
from this document, raises `KeyError`. -/
def vsmDocVector (lg : ℚ → ℚ) (dm : WeightScheme) (ix : FieldIndex)
    (idfs : List (String × ℚ)) : List String → String → Except PyErr (List ℚ)
  | [], _ => .ok []
  | t :: rest, doc =>
    match lookupA ix t with
    | none => .error .keyError
    | some ps =>
      match lookupA ps doc with
      | none => .error .keyError
      | some tf => do
        let r ← vsmDocVector lg dm ix idfs rest doc
        .ok (vsmDocTermWeight lg dm ((lookupA idfs t).getD 0) tf :: r)

/-- `score += query_score[term] * doc_scores[i]` over the positions of the
query. -/
def vsmDotQueryDoc (qdict : List (String × ℚ)) : List String → List ℚ → ℚ
  | t :: ts, x :: xs => (lookupA qdict t).getD 0 * x + vsmDotQueryDoc qdict ts xs
  | _, _ => 0

/-- One document's VSM score: the doc vector, the source's `c` step
(multiply by `np.dot(doc_scores, doc_scores)`), then the positional dot
product with the query weights. -/
def vsmDocScore (lg : ℚ → ℚ) (dm : WeightScheme) (ix : FieldIndex)
    (idfs qdict : List (String × ℚ)) (query : List String) (doc : String) :
    Except PyErr ℚ := do
  let v ← vsmDocVector lg dm ix idfs query doc
  let w := if dm.normComp = 'c' then v.map (fun x => dotQ v v * x) else v
  .ok (vsmDotQueryDoc qdict query w)

/-- The `for doc in docs` loop building the scores dict. -/
def vsmScoresAux (lg : ℚ → ℚ) (dm : WeightScheme) (ix : FieldIndex)
    (idfs qdict : List (String × ℚ)) (query : List String) :
    List String → Except PyErr (List (String × ℚ))
  | [] => .ok []
  | d :: ds => do
    let s ← vsmDocScore lg dm ix idfs qdict query d
    let r ← vsmScoresAux lg dm ix idfs qdict query ds
    .ok ((d, s) :: r)

/-- `Scorer.compute_scores_with_vector_space_model` for a split method
`doc_method.query_method`. -/
def compute_scores_with_vector_space_model (lg : ℚ → ℚ) (ix : FieldIndex) (N : ℚ)
    (query : List String) (dm qm : WeightScheme) : Except PyErr (List (String × ℚ)) := do
  let docs := get_list_of_documents ix query
  let idfs ← vsmIdfs lg ix N query
  let qtfs := get_query_tfs query
  let qdict := assocOfZip query (vsmQueryVector lg qm idfs qtfs query)
  vsmScoresAux lg dm ix idfs qdict query docs

/-- A field index in which term `a` has document frequency 1 and any other
term has document frequency 0. -/
def c4Index : FieldIndex := [("a", [("d1", 1)])]

/-- A field index where `d1` contains only term `a` and `d2` only term `c`. -/
def c5Index : FieldIndex := [("a", [("d1", 1)]), ("c", [("d2", 1)])]

/-- The `nnn` weighting code: raw tf, no idf, no normalization. -/
def schemeNNN : WeightScheme := ⟨'n', 'n', 'n'⟩

/-- The `nnc` weighting code: raw tf, no idf, `c` normalization. -/
def schemeNNC : WeightScheme := ⟨'n', 'n', 'c'⟩

/-- A field index where document `d1` has tf 1 for term `a` and tf 2 for
term `c`, so its raw `nnn` weight vector for query `[a, c]` is `[1, 2]`. -/
def c3Index : FieldIndex := [("a", [("d1", 1)]), ("c", [("d1", 2)])]

/-- Real dot product, for stating the spec-side cosine score. -/
noncomputable def dotR : List ℝ → List ℝ → ℝ
  | a :: as, c :: cs => a * c + dotR as cs
  | _, _ => 0

/-- Following the spec's words (§4.4): cosine normalization divides the weight
vector by its Euclidean norm. -/
noncomputable def euclideanNormalize (v : List ℝ) : List ℝ :=
  v.map (fun x => x / Real.sqrt (dotR v v))

/-- Following the spec's words: the VSM score computed from the norm-divided
document vector. -/
noncomputable def specCosineScore (qw dw : List ℝ) : ℝ :=
  dotR qw (euclideanNormalize dw)

/-- Insert into a key-ascending list, used to model `dict(sorted(d.items()))`
(tuple comparison starts at the key, and dict keys are unique). -/
def insertKeyAsc (p : String × ℚ) : List (String × ℚ) → List (String × ℚ)
  | [] => [p]
  | q :: rest => if pyStrLt p.1 q.1 then p :: q :: rest else q :: insertKeyAsc p rest

/-- `dict(sorted(scores.items()))`. -/
def sortByKeyAsc (l : List (String × ℚ)) : List (String × ℚ) :=
  l.foldl (fun acc p => insertKeyAsc p acc) []

/-- The inner `for doc2 in scores2` loop of `SearchEngine.merge_scores` for a
fixed `doc1`: sum and break on a match, take `scores1[doc1]` and break once
`doc1 < doc2`, and otherwise copy `scores2[doc2]` and keep scanning. -/
def mergeInner (merged : List (String × ℚ)) (doc1 : String) (v1 : ℚ) :
    List (String × ℚ) → List (String × ℚ)
  | [] => merged
  | (d2, v2) :: rest =>
    if doc1 = d2 then updateA merged doc1 (v1 + v2)
    else if pyStrLt doc1 d2 then updateA merged doc1 v1
    else mergeInner (updateA merged d2 v2) doc1 v1 rest

/-- `SearchEngine.merge_scores`. `if not scores1` only tests the first dict:
an empty `scores1` returns `scores2` (or `scores1` when both are empty), while
a nonempty `scores1` always runs the nested loops — even against an empty
`scores2`, in which case every `doc1` is dropped. -/
def merge_scores (s1 s2 : List (String × ℚ)) : List (String × ℚ) :=
  if s1.isEmpty then (if s2.isEmpty then s1 else s2)
  else
    let t1 := sortByKeyAsc s1
    let t2 := sortByKeyAsc s2
    t1.foldl (fun m p => mergeInner m p.1 p.2 t2) []

/-- The in-place weighting loop of `aggregate_scores`:
`field_scores[doc] *= weights[field]`. -/
def applyWeight (w : ℚ) (m : List (String × ℚ)) : List (String × ℚ) :=
  m.map (fun p => (p.1, p.2 * w))

/-- `SearchEngine.aggregate_scores`: weight each field's map, then fold the
three maps through the pairwise `merge_scores`. -/
def aggregate_scores (wStars wGenres wSummaries : ℚ)
    (stars genres summaries : List (String × ℚ)) : List (String × ℚ) :=
  merge_scores (merge_scores (applyWeight wStars stars) (applyWeight wGenres genres))
    (applyWeight wSummaries summaries)

/-- Stable insertion for a descending-by-score sort: a new element goes after
every element with a score `≥` its own. -/
def insertScoreDesc (p : String × ℚ) : List (String × ℚ) → List (String × ℚ)
  | [] => [p]
  | q :: rest => if q.2 < p.2 then p :: q :: rest else q :: insertScoreDesc p rest

/-- `sorted(final_scores.items(), key=lambda x: x[1], reverse=True)`: Python's
sort is stable, so ties keep the iteration order of the dict. -/
def pySortScoreDesc (l : List (String × ℚ)) : List (String × ℚ) :=
  l.foldl (fun acc p => insertScoreDesc p acc) []

/-- The ranking step of `SearchEngine.search`: sort the merged map by score
descending, then `result[:max_results]` unless `max_results is None`. -/
def searchFinalize (final_scores : List (String × ℚ)) (max_results : Option Nat) :
    List (String × ℚ) :=
  let r := pySortScoreDesc final_scores
  match max_results with
  | some k => r.take k
  | none => r

/-- Following the claim's words: one insertion step of a sort by score
descending with ties broken by document id ascending. -/
def insertClaimOrder (p : String × ℚ) : List (String × ℚ) → List (String × ℚ)
  | [] => [p]
  | q :: rest =>
    if q.2 < p.2 ∨ (q.2 = p.2 ∧ pyStrLt p.1 q.1) then p :: q :: rest
    else q :: insertClaimOrder p rest

/-- Following the claim's words: sort by score descending, ties by document id
ascending. -/
def claimSort (l : List (String × ℚ)) : List (String × ℚ) :=
  l.foldl (fun acc p => insertClaimOrder p acc) []

/-- The per-document length recorded by `get_average_document_field_length`:
`len(doc[where])` — the number of entries of the field list, not the token
count — with the truthiness guard sending both `None` and `[]` to 0. -/
def fieldEntryLength (o : Option (List (List String))) : Nat :=
  match o with
  | none => 0
  | some es => es.length

/-- `Metadata_index.get_average_document_field_length`: `np.mean` of the
per-document lengths (the empty-corpus `np.mean([])` is NaN in Python and is
outside this model, which is why the metadata theorem assumes a nonempty
corpus). -/
def get_average_document_field_length (docs : List Document)
    (fieldOf : Document → Option (List (List String))) : ℚ :=
  (docs.map (fun d => (fieldEntryLength (fieldOf d) : ℚ))).sum / docs.length

/-- The record built by `create_metadata_index`. -/
structure MetadataIndex where
  avgStars : ℚ
  avgGenres : ℚ
  avgSummaries : ℚ
  document_count : Nat
deriving DecidableEq

/-- `Metadata_index.create_metadata_index`. -/
def create_metadata_index (docs : List Document) : MetadataIndex :=
  { avgStars := get_average_document_field_length docs (·.stars)
    avgGenres := get_average_document_field_length docs (·.genres)
    avgSummaries := get_average_document_field_length docs (·.summaries)
    document_count := docs.length }

/-- Following the claim's words: a document's token count for a field is the
number of tokens over all entries (null field contributes 0). -/
def fieldTokenCount (o : Option (List (List String))) : Nat :=
  (fieldWords o).length

/-- Following the claim's words: the arithmetic mean of per-document token
counts of a field. -/
def specAverageTokenLength (docs : List Document)
    (fieldOf : Document → Option (List (List String))) : ℚ :=
  (docs.map (fun d => (fieldTokenCount (fieldOf d) : ℚ))).sum / docs.length

/-- A one-document corpus whose summaries field has one entry of two tokens. -/
def c8Docs : List Document :=
  [{ id := "d1", stars := some [], genres := some [], summaries := some [["a", "c"]] }]

/-- The BM25 `k1` constant fixed by the spec (§4.4). -/
def bm25K1 : ℚ := 3 / 2

/-- The BM25 `b` constant fixed by the spec (§4.4). -/
def bm25B : ℚ := 3 / 4

/-- Modelled from the spec: `Scorer.get_okapi_bm25_score` and
`Scorer.compute_socres_with_okapi_bm25` are `pass` stubs in
`src/Logic/core/utility/scorer.py`, so the per-term BM25 contribution follows
§4.4 of the spec: `idf(term) * tf*(k1+1) / (tf + k1*(1 - b + b*Ld/avg_len))`;
a term with `df = 0` is skipped, a term with no posting for the document
contributes 0, and a missing document length contributes 0. -/
def bm25TermContribution (lg : ℚ → ℚ) (ix : FieldIndex) (N avgLen : ℚ)
    (docLengths : List (String × ℚ)) (t d : String) : ℚ :=
  let ps := (lookupA ix t).getD []
  if ps.length = 0 then 0
  else
    match lookupA ps d, lookupA docLengths d with
    | some tf, some dl =>
        lg (N / ps.length) * ((tf : ℚ) * (bm25K1 + 1))
          / ((tf : ℚ) + bm25K1 * (1 - bm25B + bm25B * dl / avgLen))
    | _, _ => 0

/-- The spec's closed-form BM25 term formula, with no presence guards. -/
def bm25Formula (lg : ℚ → ℚ) (N avgLen : ℚ) (df tf : Nat) (dl : ℚ) : ℚ :=
  lg (N / df) * ((tf : ℚ) * (bm25K1 + 1))
    / ((tf : ℚ) + bm25K1 * (1 - bm25B + bm25B * dl / avgLen))

/-- Modelled from the spec: a document's BM25 score is the sum of its
per-term contributions over the query. -/
def get_okapi_bm25_score (lg : ℚ → ℚ) (ix : FieldIndex) (N avgLen : ℚ)
    (docLengths : List (String × ℚ)) (query : List String) (d : String) : ℚ :=
  (query.map (fun t => bm25TermContribution lg ix N avgLen docLengths t d)).sum

/-- Modelled from the spec: BM25 scores every document holding at least one
query term (the name keeps the source's spelling). -/
def compute_socres_with_okapi_bm25 (lg : ℚ → ℚ) (ix : FieldIndex) (N avgLen : ℚ)
    (docLengths : List (String × ℚ)) (query : List String) : List (String × ℚ) :=
  (get_list_of_documents ix query).map
    (fun d => (d, get_okapi_bm25_score lg ix N avgLen docLengths query d))

/-- The BM25 scenario index of the spec: term `good` with postings
`{d1: 2, d2: 1}`. -/
def bmIx : FieldIndex := [("good", [("d1", 2), ("d2", 1)])]

/-- Document lengths for the BM25 scenario. -/
def bmLens : List (String × ℚ) := [("d1", 3), ("d2", 2)]

/-- The document ids recorded under a term of a field index — what the `keys()`
call of `get_posting_list` returns — empty when the term key is absent. -/
def postingDocIds (ix : FieldIndex) (t : String) : List String :=
  ((lookupA ix t).getD []).map (·.1)

end MIR

namespace MIR

/-- `Except.ok` feeds its value straight to the continuation. -/
theorem ok_bind {α β : Type} (a : α) (f : α → Except PyErr β) :
    (Except.ok a >>= f : Except PyErr β) = f a := rfl

/-- A constant scaling of the document vector scales the positional dot
product with the query weights. -/
theorem vsmDotQueryDoc_map_mul (qdict : List (String × ℚ)) (c : ℚ) :
    ∀ (q : List String) (v : List ℚ),
      vsmDotQueryDoc qdict q (v.map (fun x => c * x)) = c * vsmDotQueryDoc qdict q v
  | [], _ => by simp [vsmDotQueryDoc]
  | _ :: _, [] => by simp [vsmDotQueryDoc]
  | t :: ts, x :: xs => by
    simp only [List.map_cons, vsmDotQueryDoc, vsmDotQueryDoc_map_mul qdict c ts xs]
    ring

/-- Inserting into the descending sort is a permutation with consing. -/
theorem insertScoreDesc_perm (p : String × ℚ) (l : List (String × ℚ)) :
    (insertScoreDesc p l).Perm (p :: l) := by
  induction l with
  | nil => exact List.Perm.refl _
  | cons q rest ih =>
    rw [insertScoreDesc]
    by_cases h : q.2 < p.2
    · simp [h]
    · simp only [h, if_false]
      exact (ih.cons q).trans (List.Perm.swap p q rest)

/-- The sorting fold permutes its input onto the accumulator. -/
theorem pySortInsert_perm_aux : ∀ (l acc : List (String × ℚ)),
    (l.foldl (fun acc p => insertScoreDesc p acc) acc).Perm (l ++ acc)
  | [], acc => by simp
  | p :: rest, acc => by
    simp only [List.foldl_cons, List.cons_append]
    refine (pySortInsert_perm_aux rest (insertScoreDesc p acc)).trans ?_
    exact ((insertScoreDesc_perm p acc).append_left rest).trans List.perm_middle

/-- The stable descending sort permutes its input. -/
theorem pySortScoreDesc_perm (l : List (String × ℚ)) : (pySortScoreDesc l).Perm l := by
  simpa using pySortInsert_perm_aux l []

/-- Insertion preserves the descending-score invariant. -/
theorem insertScoreDesc_pairwise (p : String × ℚ) (l : List (String × ℚ))
    (h : List.Pairwise (fun a d => d.2 ≤ a.2) l) :
    List.Pairwise (fun a d => d.2 ≤ a.2) (insertScoreDesc p l) := by
  induction l with
  | nil => simp [insertScoreDesc]
  | cons q rest ih =>
    rw [List.pairwise_cons] at h
    obtain ⟨hq, hrest⟩ := h
    rw [insertScoreDesc]
    by_cases hlt : q.2 < p.2
    · simp only [hlt, if_true]
      refine List.Pairwise.cons ?_ (List.Pairwise.cons hq hrest)
      intro x hx
      rcases List.mem_cons.mp hx with rfl | hx
      · exact le_of_lt hlt
      · exact le_trans (hq x hx) (le_of_lt hlt)
    · simp only [hlt, if_false]
      refine List.Pairwise.cons ?_ (ih hrest)
      intro x hx
      rcases List.mem_cons.mp ((insertScoreDesc_perm p rest).mem_iff.mp hx) with rfl | hx
      · exact le_of_not_lt hlt
      · exact hq x hx

/-- Stability of one insertion: into a descending-sorted list, a new element
lands after every earlier element with the same score, so the per-score
filter gains the new element at the end. -/
theorem insertScoreDesc_filter (c : ℚ) (p : String × ℚ) (l : List (String × ℚ))
    (h : List.Pairwise (fun a d => d.2 ≤ a.2) l) :
    (insertScoreDesc p l).filter (fun q => decide (q.2 = c))
      = if p.2 = c then l.filter (fun q => decide (q.2 = c)) ++ [p]
        else l.filter (fun q => decide (q.2 = c)) := by
  induction l with
  | nil =>
    by_cases hp : p.2 = c <;> simp [insertScoreDesc, hp]
  | cons q rest ih =>
    rw [List.pairwise_cons] at h
    obtain ⟨hq, hrest⟩ := h
    rw [insertScoreDesc]
    by_cases hlt : q.2 < p.2
    · simp only [hlt, if_true]
      by_cases hp : p.2 = c
      · have hnil : ∀ x ∈ q :: rest, ¬(x.2 = c) := by
          intro x hx hxc
          rcases List.mem_cons.mp hx with rfl | hx
          · rw [hxc, ← hp] at hlt
            exact absurd hlt (lt_irrefl _)
          · have := lt_of_le_of_lt (hq x hx) hlt
            rw [hxc, ← hp] at this
            exact absurd this (lt_irrefl _)
        have h1 : (q :: rest).filter (fun x => decide (x.2 = c)) = [] := by
          rw [List.filter_eq_nil_iff]
          intro x hx
          simpa using hnil x hx
        simp [List.filter_cons, hp, h1]
      · simp [List.filter_cons, hp]
    · simp only [hlt, if_false]
      by_cases hp : p.2 = c <;> by_cases hq2 : q.2 = c <;>
        simp [List.filter_cons, hp, hq2, ih hrest]

/-- The sorting fold keeps the accumulator descending-sorted. -/
theorem pySortPairwise_aux : ∀ (l acc : List (String × ℚ)),
    List.Pairwise (fun a d => d.2 ≤ a.2) acc →
    List.Pairwise (fun a d => d.2 ≤ a.2) (l.foldl (fun acc p => insertScoreDesc p acc) acc)
  | [], _, h => h
  | p :: rest, acc, h => pySortPairwise_aux rest _ (insertScoreDesc_pairwise p acc h)

/-- Stability of the whole fold, phrased through per-score filters. -/
theorem pySortFilter_aux (c : ℚ) : ∀ (l acc : List (String × ℚ)),
    List.Pairwise (fun a d => d.2 ≤ a.2) acc →
    (l.foldl (fun acc p => insertScoreDesc p acc) acc).filter (fun q => decide (q.2 = c))
      = acc.filter (fun q => decide (q.2 = c)) ++ l.filter (fun q => decide (q.2 = c))
  | [], acc, h => by simp
  | p :: rest, acc, h => by
    simp only [List.foldl_cons]
    rw [pySortFilter_aux c rest _ (insertScoreDesc_pairwise p acc h)]
    rw [insertScoreDesc_filter c p acc h]
    by_cases hp : p.2 = c <;> simp [List.filter_cons, hp]

/-- Looking up a key in a map built by pairing each element with a value. -/
theorem lookupA_map_pair (f : String → ℚ) :
    ∀ (l : List String) (d : String), d ∈ l →
      lookupA (l.map (fun x => (x, f x))) d = some (f d) := by
  intro l
  induction l with
  | nil => intro d h; exact absurd h (List.not_mem_nil _)
  | cons x xs ih =>
    intro d h
    by_cases hx : x = d
    · subst hx
      simp [lookupA, List.find?]
    · rcases List.mem_cons.mp h with rfl | hmem
      · exact absurd rfl hx
      · have hr := ih d hmem
        simp only [lookupA, List.map_cons] at hr ⊢
        rw [List.find?_cons_of_neg]
        · exact hr
        · simp [hx]

/-- Summing BM25 contributions over the whole query equals summing the
closed-form formula over only the query terms present in the document:
an absent posting contributes exactly 0. -/
theorem bm25_sum_eq_filtered (lg : ℚ → ℚ) (ix : FieldIndex) (N avgLen : ℚ)
    (docLengths : List (String × ℚ)) (d : String) (dl : ℚ)
    (hdl : lookupA docLengths d = some dl) :
    ∀ q : List String,
      get_okapi_bm25_score lg ix N avgLen docLengths q d
        = ((q.filter (fun t => (lookupA ((lookupA ix t).getD []) d).isSome)).map
            (fun t => bm25Formula lg N avgLen ((lookupA ix t).getD []).length
              ((lookupA ((lookupA ix t).getD []) d).getD 0) dl)).sum
  | [] => rfl
  | t :: q => by
    have ih := bm25_sum_eq_filtered lg ix N avgLen docLengths d dl hdl q
    rw [get_okapi_bm25_score] at ih ⊢
    rw [List.map_cons, List.sum_cons, ih]
    cases hlk : lookupA ((lookupA ix t).getD []) d with
    | none =>
      have hc : bm25TermContribution lg ix N avgLen docLengths t d = 0 := by
        rw [bm25TermContribution]
        by_cases hz : ((lookupA ix t).getD []).length = 0
        · simp [hz]
        · simp [hz, hlk]
      rw [List.filter_cons]
      simp [hlk, hc]
    | some tf =>
      have hz : ¬(((lookupA ix t).getD []).length = 0) := by
        intro h0
        rw [List.length_eq_zero] at h0
        rw [h0] at hlk
        simp [lookupA] at hlk
      have hc : bm25TermContribution lg ix N avgLen docLengths t d
          = bm25Formula lg N avgLen ((lookupA ix t).getD []).length tf dl := by
        rw [bm25TermContribution, bm25Formula]
        simp [hz, hlk, hdl]
      rw [List.filter_cons]
      simp [hlk, hc]

/-- A document with no posting for any query term has BM25 score 0. -/
theorem bm25_zero_of_all_absent (lg : ℚ → ℚ) (ix : FieldIndex) (N avgLen : ℚ)
    (docLengths : List (String × ℚ)) (d : String) :
    ∀ q : List String, (∀ t ∈ q, lookupA ((lookupA ix t).getD []) d = none) →
      get_okapi_bm25_score lg ix N avgLen docLengths q d = 0
  | [], _ => rfl
  | t :: q, h => by
    have ih := bm25_zero_of_all_absent lg ix N avgLen docLengths d q
      (fun t2 ht2 => h t2 (List.mem_cons_of_mem t ht2))
    rw [get_okapi_bm25_score] at ih ⊢
    rw [List.map_cons, List.sum_cons, ih]
    have hc : bm25TermContribution lg ix N avgLen docLengths t d = 0 := by
      rw [bm25TermContribution]
      by_cases hz : ((lookupA ix t).getD []).length = 0
      · simp [hz]
      · simp [hz, h t (List.mem_cons_self t q)]
    rw [hc, add_zero]

/-- `lookupA` looks at the head first. -/
theorem lookupA_cons {β : Type} (p : String × β) (rest : List (String × β)) (k2 : String) :
    lookupA (p :: rest) k2 = if p.1 = k2 then some p.2 else lookupA rest k2 := by
  by_cases h : p.1 = k2
  · simp [lookupA, List.find?_cons_of_pos, h]
  · simp [lookupA, List.find?_cons_of_neg, h]

/-- Dict write then lookup: the written key reads back the new value, other
keys are untouched. -/
theorem lookupA_updateA {β : Type} (l : List (String × β)) (k k2 : String) (v : β) :
    lookupA (updateA l k v) k2 = if k2 = k then some v else lookupA l k2 := by
  induction l with
  | nil =>
    rw [updateA]
    rw [lookupA_cons]
    by_cases h : k2 = k
    · simp [h]
    · simp [h, Ne.symm h, lookupA]
  | cons p rest ih =>
    rw [updateA]
    by_cases hp : p.1 = k
    · simp only [if_pos hp]
      rw [lookupA_cons, lookupA_cons]
      by_cases h : k2 = k
      · simp [h]
      · have hpq : ¬(p.1 = k2) := by
          rw [hp]
          exact Ne.symm h
        simp [Ne.symm h, hpq, h]
    · simp only [if_neg hp]
      rw [lookupA_cons, lookupA_cons]
      by_cases hq : p.1 = k2
      · have hkk : ¬(k2 = k) := by
          intro hh
          exact hp (by rw [hq, hh])
        simp [hq, hkk]
      · simp [hq, ih]

/-- A dict write adds exactly its own key to the key set. -/
theorem mem_keys_updateA {β : Type} (ps : List (String × β)) (k d : String) (v : β) :
    d ∈ (updateA ps k v).map (·.1) ↔ d = k ∨ d ∈ ps.map (·.1) := by
  induction ps with
  | nil => simp [updateA, eq_comm]
  | cons p rest ih =>
    rw [updateA]
    by_cases hp : p.1 = k
    · rw [if_pos hp]
      simp only [List.map_cons, List.mem_cons]
      rw [hp]
      tauto
    · rw [if_neg hp]
      simp only [List.map_cons, List.mem_cons, ih]
      tauto

/-- One document's word loop registers the document id under exactly its own
words, leaving every other posting membership unchanged. -/
theorem mem_postingDocIds_wordsFold (docId : String) (ws : List String) :
    ∀ (us : List String) (ix : FieldIndex) (t d : String),
      d ∈ postingDocIds (us.foldl (fun ix w =>
          updateA ix w (updateA ((lookupA ix w).getD []) docId (ws.count w))) ix) t
        ↔ (d = docId ∧ t ∈ us) ∨ d ∈ postingDocIds ix t
  | [], ix, t, d => by simp
  | w :: us, ix, t, d => by
    rw [List.foldl_cons]
    rw [mem_postingDocIds_wordsFold docId ws us _ t d]
    have hkey : d ∈ postingDocIds
        (updateA ix w (updateA ((lookupA ix w).getD []) docId (ws.count w))) t
        ↔ (d = docId ∧ t = w) ∨ d ∈ postingDocIds ix t := by
      rw [postingDocIds, lookupA_updateA]
      by_cases ht : t = w
      · rw [if_pos ht, ht]
        simp only [Option.getD_some]
        rw [mem_keys_updateA]
        simp [postingDocIds]
      · rw [if_neg ht]
        simp [postingDocIds, ht]
    rw [hkey]
    simp only [List.mem_cons]
    tauto

/-- Posting membership in a built field index: a document id is recorded
under a term exactly when some document of the corpus with that id has the
term among its field words. -/
theorem mem_postingDocIds_indexField (fieldOf : Document → Option (List (List String))) :
    ∀ (docs : List Document) (acc : FieldIndex) (t d : String),
      d ∈ postingDocIds (indexField fieldOf docs acc) t
        ↔ (∃ doc ∈ docs, doc.id = d ∧ t ∈ fieldWords (fieldOf doc))
          ∨ d ∈ postingDocIds acc t
  | [], acc, t, d => by simp [indexField]
  | doc :: docs, acc, t, d => by
    rw [indexField]
    rw [mem_postingDocIds_indexField fieldOf docs _ t d]
    have hstep : d ∈ postingDocIds
        (indexFieldStep acc doc.id (fieldWords (fieldOf doc))) t
        ↔ (d = doc.id ∧ t ∈ fieldWords (fieldOf doc)) ∨ d ∈ postingDocIds acc t := by
      rw [indexFieldStep]
      rw [mem_postingDocIds_wordsFold doc.id (fieldWords (fieldOf doc))
        (fieldWords (fieldOf doc)).dedup acc t d]
      rw [List.mem_dedup]
    rw [hstep]
    simp only [List.mem_cons]
    constructor
    · intro h
      rcases h with ⟨doc2, hmem, hid, hw⟩ | (⟨hd, hw⟩ | hacc)
      · exact Or.inl ⟨doc2, Or.inr hmem, hid, hw⟩
      · exact Or.inl ⟨doc, Or.inl rfl, hd.symm, hw⟩
      · exact Or.inr hacc
    · intro h
      rcases h with ⟨doc2, hmem | hmem, hid, hw⟩ | hacc
      · subst hmem
        exact Or.inr (Or.inl ⟨hid.symm, hw⟩)
      · exact Or.inl ⟨doc2, hmem, hid, hw⟩
      · exact Or.inr (Or.inr hacc)


/-- **C1.** For a document `d` whose id is fresh, the claim demands
`remove(add(index, d)) == index` across all four indexes. On the empty index
and `d = {id: "1", stars: [], genres: [], summaries: ["good"]}`, the code
instead leaves the summaries index equal to `{"good": {}}`: the term key
created by the add survives the remove with an empty postings dict, so the
round-tripped state is not Python-equal to the original. -/
theorem add_then_remove_leaves_empty_term_key :
    (add_document_to_index (buildIndex []) c1Doc).map
        (fun ix => pyIndexStateEqB (remove_document_from_index ix "1") (buildIndex []))
      = .ok false ∧
    (add_document_to_index (buildIndex []) c1Doc).map
        (fun ix => lookupA (remove_document_from_index ix "1").summaries "good")
      = .ok (some []) := by
  constructor <;> rfl

/-- **C10 counterexample.** The claim says a posting-list lookup with an
unknown index type raises an invalid-request error before any computation.
On `index_type = "movies"` the code instead falls through every branch and
returns Python `None`; nothing is raised. -/
theorem unknown_index_type_counterexample :
    get_posting_list (buildIndex []) "good" "movies" = .pyNone ∧
    PostingResult.pyNone ≠ PostingResult.invalidRequestError := by
  constructor
  · rfl
  · intro h
    cases h

/-- **C10 amended.** A posting-list lookup with an unknown field / index type
does not raise: it matches no branch and silently returns Python `None` — a
null result that is distinct from the empty list returned for an absent term,
but is not an error. -/
theorem unknown_index_type_returns_none (ix : IndexState) (word t : String)
    (h : t ∉ ["documents", "stars", "genres", "summaries"]) :
    get_posting_list ix word t = .pyNone ∧
    PostingResult.pyNone ≠ PostingResult.ids [] := by
  refine ⟨?_, by intro h; cases h⟩
  simp only [List.mem_cons, List.not_mem_nil, or_false, not_or] at h
  obtain ⟨h1, h2, h3, h4⟩ := h
  simp [get_posting_list, h1, h2, h3, h4]

/-- Witness for the C10 amended theorem at `t = "movies"`. -/
theorem unknown_index_type_returns_none_witness :
    get_posting_list (buildIndex []) "good" "movies" = .pyNone ∧
    PostingResult.pyNone ≠ PostingResult.ids [] :=
  unknown_index_type_returns_none (buildIndex []) "good" "movies" (by decide)

/-- **C4.** The claim says a term with `df = 0` is skipped (no score, no
error, no division by zero), and `idf = ln(N/df)` when `df > 0`. The code does
satisfy the `df > 0` formula, but on `df = 0` — any term absent from the
posting source, here `"zzz"` against an index holding only `"a"` — it
evaluates `math.log(self.N / df)` with `df = 0` and raises
`ZeroDivisionError` instead of skipping. -/
theorem get_idf_zero_df_raises :
    get_idf (fun _ => 0) c4Index 2 "zzz" = .error .zeroDivision ∧
    (∀ lg : ℚ → ℚ, get_idf lg c4Index 2 "a" = .ok (lg 2)) := by
  refine ⟨rfl, fun lg => ?_⟩
  show Except.ok (lg (2 / ((1 : Nat) : ℚ))) = Except.ok (lg 2)
  norm_num

/-- **C5.** The claim says a document containing at least one query term but
missing another still gets a score, the missing terms contributing 0, with no
lookup error. With the index `{a: {d1: 1}, c: {d2: 1}}` and query `[a, c]`,
document `d1` contains `a` but not `c`; the code evaluates
`self.index["c"]["d1"]`, raising `KeyError`, so the whole VSM computation
fails instead of returning scores. -/
theorem vsm_missing_term_raises_keyerror :
    compute_scores_with_vector_space_model (fun _ => 0) c5Index 2 ["a", "c"]
      schemeNNN schemeNNN = .error .keyError := by
  rfl

/-- **C2.** The claim says the merge is a union-sum: every document present in
at least one field map appears in the merged map. The pairwise walk of
`merge_scores` instead drops documents: merging `{d1: 1}` with `{d2: 2}`
yields `{d1: 1}` (the `doc1 < doc2` branch breaks before `d2` is ever
copied), and the three-field aggregation of `{d1: 1}, {}, {d2: 2}` yields
`{d2: 2}` (a nonempty map merged with an empty one produces `{}`, erasing
`d1`), not the union `{d1: 1, d2: 2}`. -/
theorem merge_scores_drops_documents :
    merge_scores [("d1", 1)] [("d2", 2)] = [("d1", 1)] ∧
    aggregate_scores 1 1 1 [("d1", 1)] [] [("d2", 2)] = [("d2", 2)] := by
  constructor
  · decide
  · have ha : applyWeight 1 [("d1", (1 : ℚ))] = [("d1", 1)] := by norm_num [applyWeight]
    have hb : applyWeight 1 ([] : List (String × ℚ)) = [] := rfl
    have hc : applyWeight 1 [("d2", (2 : ℚ))] = [("d2", 2)] := by norm_num [applyWeight]
    rw [aggregate_scores, ha, hb, hc]
    decide

/-- **C7 counterexample.** The claim says ties are broken by document id
ascending. Python's stable sort keeps ties in the iteration order of the
merged map, so on the map `{d2: 1, d1: 1}` the code returns `[d2, d1]` while
the claimed order is `[d1, d2]`. -/
theorem search_tie_order_counterexample :
    searchFinalize [("d2", 1), ("d1", 1)] none = [("d2", 1), ("d1", 1)] ∧
    claimSort [("d2", 1), ("d1", 1)] = [("d1", 1), ("d2", 1)] ∧
    searchFinalize [("d2", 1), ("d1", 1)] none ≠ claimSort [("d2", 1), ("d1", 1)] := by
  refine ⟨by decide, by decide, by decide⟩

/-- **C7 amended.** The ranking step of `search` returns a permutation of the
merged map sorted by score descending; ties are not reordered by document id
but keep the map's iteration order (Python's stable sort: the per-score
subsequences are preserved verbatim); an integer `max_results` truncates the
sorted list to its first `max_results` entries, and `None` returns all of
them. -/
theorem search_sorts_desc_stably_and_truncates (fs : List (String × ℚ)) (k : Nat) (c : ℚ) :
    (searchFinalize fs none).Perm fs ∧
    List.Pairwise (fun a d => d.2 ≤ a.2) (searchFinalize fs none) ∧
    (searchFinalize fs none).filter (fun q => decide (q.2 = c))
      = fs.filter (fun q => decide (q.2 = c)) ∧
    searchFinalize fs (some k) = (searchFinalize fs none).take k := by
  refine ⟨pySortScoreDesc_perm fs, pySortPairwise_aux fs [] (by simp), ?_, rfl⟩
  have := pySortFilter_aux c fs [] (by simp)
  simpa [searchFinalize, pySortScoreDesc] using this

/-- **C8 counterexample.** The claim says the per-field average is the mean of
token counts. The code computes `len(doc[where])` — the number of entries of
the field list. For a one-document corpus whose summaries field is a single
two-token entry (Python `["a c"]`), the code records an average of 1 while
the mean token count is 2. -/
theorem metadata_entry_vs_token_counterexample :
    (create_metadata_index c8Docs).avgSummaries = 1 ∧
    specAverageTokenLength c8Docs (·.summaries) = 2 ∧
    (1 : ℚ) ≠ 2 := by
  refine ⟨?_, ?_, by norm_num⟩
  · norm_num [create_metadata_index, get_average_document_field_length, fieldEntryLength,
      c8Docs]
  · norm_num [specAverageTokenLength, fieldTokenCount, fieldWords, c8Docs]

/-- **C8 amended.** On a nonempty corpus, `create_metadata_index` records
`document_count` equal to the number of documents, and, per field, the
arithmetic mean of the number of entries of that field's list (a null or
empty field contributing 0) — not of its token count. -/
theorem metadata_counts_and_entry_average (docs : List Document) (h : docs ≠ []) :
    (create_metadata_index docs).document_count = docs.length ∧
    (create_metadata_index docs).avgStars * (docs.length : ℚ)
      = (docs.map (fun d => (fieldEntryLength d.stars : ℚ))).sum ∧
    (create_metadata_index docs).avgGenres * (docs.length : ℚ)
      = (docs.map (fun d => (fieldEntryLength d.genres : ℚ))).sum ∧
    (create_metadata_index docs).avgSummaries * (docs.length : ℚ)
      = (docs.map (fun d => (fieldEntryLength d.summaries : ℚ))).sum := by
  have hlen : ((docs.length : ℚ)) ≠ 0 := by
    have := List.length_pos.mpr h
    simp only [ne_eq, Nat.cast_eq_zero]
    omega
  exact ⟨rfl, div_mul_cancel₀ _ hlen, div_mul_cancel₀ _ hlen, div_mul_cancel₀ _ hlen⟩

/-- Witness for the C8 amended theorem on the one-document corpus. -/
theorem metadata_counts_and_entry_average_witness :
    (create_metadata_index c8Docs).document_count = c8Docs.length ∧
    (create_metadata_index c8Docs).avgStars * (c8Docs.length : ℚ)
      = (c8Docs.map (fun d => (fieldEntryLength d.stars : ℚ))).sum ∧
    (create_metadata_index c8Docs).avgGenres * (c8Docs.length : ℚ)
      = (c8Docs.map (fun d => (fieldEntryLength d.genres : ℚ))).sum ∧
    (create_metadata_index c8Docs).avgSummaries * (c8Docs.length : ℚ)
      = (c8Docs.map (fun d => (fieldEntryLength d.summaries : ℚ))).sum :=
  metadata_counts_and_entry_average c8Docs (by decide)

/-- **C6.** (Spec-modelled: the BM25 scorer is a `pass` stub in the source.)
For a document in the candidate list whose length is recorded, the BM25 map
assigns it the sum, over exactly the query terms present in its postings, of
`idf(term) * tf*(k1+1) / (tf + k1*(1 - b + b*Ld/avg_len))` with `k1 = 3/2`
and `b = 3/4`; and a document with no posting for any query term scores 0. -/
theorem bm25_score_is_sum_over_present_terms (lg : ℚ → ℚ) (ix : FieldIndex) (N avgLen : ℚ)
    (docLengths : List (String × ℚ)) (query : List String) (d : String) (dl : ℚ)
    (hd : d ∈ get_list_of_documents ix query)
    (hdl : lookupA docLengths d = some dl) :
    lookupA (compute_socres_with_okapi_bm25 lg ix N avgLen docLengths query) d
      = some (((query.filter (fun t => (lookupA ((lookupA ix t).getD []) d).isSome)).map
          (fun t => bm25Formula lg N avgLen ((lookupA ix t).getD []).length
            ((lookupA ((lookupA ix t).getD []) d).getD 0) dl)).sum) ∧
    (∀ q2 : List String, (∀ t ∈ q2, lookupA ((lookupA ix t).getD []) d = none) →
      get_okapi_bm25_score lg ix N avgLen docLengths q2 d = 0) := by
  constructor
  · rw [compute_socres_with_okapi_bm25]
    rw [lookupA_map_pair (fun x => get_okapi_bm25_score lg ix N avgLen docLengths query x)
      (get_list_of_documents ix query) d hd]
    rw [bm25_sum_eq_filtered lg ix N avgLen docLengths d dl hdl query]
  · exact bm25_zero_of_all_absent lg ix N avgLen docLengths d

/-- Witness for the C6 theorem on the spec's BM25 scenario. -/
theorem bm25_score_is_sum_over_present_terms_witness :
    ("d1" ∈ get_list_of_documents bmIx ["good"]) ∧
    lookupA bmLens "d1" = some 3 ∧
    (lookupA (compute_socres_with_okapi_bm25 (fun _ => 1) bmIx 3 2 bmLens ["good"]) "d1"
      = some (((["good"].filter
            (fun t => (lookupA ((lookupA bmIx t).getD []) "d1").isSome)).map
          (fun t => bm25Formula (fun _ => 1) 3 2 ((lookupA bmIx t).getD []).length
            ((lookupA ((lookupA bmIx t).getD []) "d1").getD 0) 3)).sum) ∧
      (∀ q2 : List String, (∀ t ∈ q2, lookupA ((lookupA bmIx t).getD []) "d1" = none) →
        get_okapi_bm25_score (fun _ => 1) bmIx 3 2 bmLens q2 "d1" = 0)) :=
  ⟨by decide, by rfl,
    bm25_score_is_sum_over_present_terms (fun _ => 1) bmIx 3 2 bmLens ["good"] "d1" 3
      (by decide) (by rfl)⟩

/-- **C9.** For each valid field, `get_posting_list` on a built index returns
(never raising) the list of document ids recorded under the term, and a
document id is in that list exactly when some corpus document with that id
contains the term among the field's words; when no document contains the
term, the result is the empty list.  -/
theorem get_posting_list_correct (docs : List Document) (w : String) (f : Field) :
    get_posting_list (buildIndex docs) w (fieldName f)
      = .ids (postingDocIds (fieldIndexOf (buildIndex docs) f) w) ∧
    (∀ d, d ∈ postingDocIds (fieldIndexOf (buildIndex docs) f) w
        ↔ ∃ doc ∈ docs, doc.id = d ∧ w ∈ fieldWords (fieldEntriesOf doc f)) ∧
    ((∀ doc ∈ docs, w ∉ fieldWords (fieldEntriesOf doc f)) →
      get_posting_list (buildIndex docs) w (fieldName f) = .ids []) := by
  have hkeys : ∀ ix : FieldIndex, postingKeysOr ix w = .ids (postingDocIds ix w) := by
    intro ix
    rw [postingKeysOr, postingDocIds]
    cases lookupA ix w <;> rfl
  have h1 : get_posting_list (buildIndex docs) w (fieldName f)
      = .ids (postingDocIds (fieldIndexOf (buildIndex docs) f) w) := by
    cases f <;> exact hkeys _
  have h2 : ∀ d, d ∈ postingDocIds (fieldIndexOf (buildIndex docs) f) w
      ↔ ∃ doc ∈ docs, doc.id = d ∧ w ∈ fieldWords (fieldEntriesOf doc f) := by
    intro d
    cases f with
    | stars =>
      have hm := mem_postingDocIds_indexField (fun dd => dd.stars) docs [] w d
      simp only [postingDocIds, lookupA, List.find?_nil, Option.map_none', Option.getD_none,
        List.map_nil, List.not_mem_nil, or_false] at hm
      exact hm
    | genres =>
      have hm := mem_postingDocIds_indexField (fun dd => dd.genres) docs [] w d
      simp only [postingDocIds, lookupA, List.find?_nil, Option.map_none', Option.getD_none,
        List.map_nil, List.not_mem_nil, or_false] at hm
      exact hm
    | summaries =>
      have hm := mem_postingDocIds_indexField (fun dd => dd.summaries) docs [] w d
      simp only [postingDocIds, lookupA, List.find?_nil, Option.map_none', Option.getD_none,
        List.map_nil, List.not_mem_nil, or_false] at hm
      exact hm
  refine ⟨h1, h2, ?_⟩
  intro habs
  rw [h1]
  have hempty : postingDocIds (fieldIndexOf (buildIndex docs) f) w = [] := by
    rw [List.eq_nil_iff_forall_not_mem]
    intro d hd
    rcases (h2 d).mp hd with ⟨doc, hmem, _, hw⟩
    exact habs doc hmem hw
  rw [hempty]

/-- Witness for the C9 theorem on the one-document corpus. -/
theorem get_posting_list_correct_witness :
    get_posting_list (buildIndex c8Docs) "a" (fieldName .summaries)
      = .ids (postingDocIds (fieldIndexOf (buildIndex c8Docs) .summaries) "a") ∧
    (∀ d, d ∈ postingDocIds (fieldIndexOf (buildIndex c8Docs) .summaries) "a"
        ↔ ∃ doc ∈ c8Docs, doc.id = d ∧ "a" ∈ fieldWords (fieldEntriesOf doc .summaries)) ∧
    ((∀ doc ∈ c8Docs, "a" ∉ fieldWords (fieldEntriesOf doc .summaries)) →
      get_posting_list (buildIndex c8Docs) "a" (fieldName .summaries) = .ids []) :=
  get_posting_list_correct c8Docs "a" Field.summaries

/-- **C3 counterexample.** The claim says that under a `..c` method the VSM
score equals the dot product taken after dividing the document vector by its
Euclidean norm. With `d1` having tf 1 for `a` and tf 2 for `c` (raw vector
`[1, 2]`) and query weights `[1, 1]` under `nnc.nnn`, the code returns 15 —
it multiplied the vector by `np.dot(v, v) = 5` — while the norm-divided score
is `3 / sqrt 5`, and `15 ≠ 3 / sqrt 5`. -/
theorem vsm_cosine_counterexample :
    compute_scores_with_vector_space_model (fun _ => 0) c3Index 2 ["a", "c"]
      schemeNNC schemeNNN = .ok [("d1", 15)] ∧
    specCosineScore [1, 1] [1, 2] = 3 / Real.sqrt 5 ∧
    (15 : ℝ) ≠ 3 / Real.sqrt 5 := by
  refine ⟨?_, ?_, ?_⟩
  · have h2 : vsmIdfs (fun _ => 0) c3Index 2 ["a", "c"] = .ok [("a", 0), ("c", 0)] := by
      simp [vsmIdfs, get_idf, c3Index, lookupA, List.find?, ok_bind]
    have h6 : vsmDocVector (fun _ => 0) schemeNNC c3Index [("a", 0), ("c", 0)] ["a", "c"] "d1"
        = .ok [1, 2] := by
      simp [vsmDocVector, vsmDocTermWeight, schemeNNC, c3Index, lookupA, List.find?, ok_bind]
    have h7 : vsmDocScore (fun _ => 0) schemeNNC c3Index [("a", 0), ("c", 0)]
        [("a", 1), ("c", 1)] ["a", "c"] "d1" = .ok 15 := by
      rw [vsmDocScore, h6, ok_bind]
      simp [vsmDotQueryDoc, dotQ, schemeNNC, lookupA, List.find?]
      norm_num
    have h1 : get_list_of_documents c3Index ["a", "c"] = ["d1"] := by decide
    have h3 : get_query_tfs ["a", "c"] = [("a", 1), ("c", 1)] := by decide
    have h4 : vsmQueryVector (fun _ => 0) schemeNNN [("a", 0), ("c", 0)]
        [("a", 1), ("c", 1)] ["a", "c"] = [1, 1] := by
      simp [vsmQueryVector, vsmQueryTermWeight, schemeNNN, lookupA, List.find?]
    have h5 : assocOfZip ["a", "c"] [1, 1] = [("a", 1), ("c", 1)] := by decide
    rw [compute_scores_with_vector_space_model, h2, ok_bind]
    simp only [h1, h3, h4, h5]
    rw [vsmScoresAux, h7, ok_bind]
    rfl
  · simp [specCosineScore, euclideanNormalize, dotR]
    norm_num
    rw [inv_eq_one_div, div_add_div_same]
    norm_num
  · intro h
    have h1 : (1 : ℝ) ≤ Real.sqrt 5 := by
      have := Real.sqrt_le_sqrt (show (1 : ℝ) ≤ 5 by norm_num)
      rwa [Real.sqrt_one] at this
    have h2 : 3 / Real.sqrt 5 ≤ 3 := div_le_self (by norm_num) h1
    rw [← h] at h2
    norm_num at h2

/-- **C3 amended.** Under a weighting code whose normalization component is
`c`, the code multiplies the document weight vector by its squared Euclidean
norm `np.dot(v, v)` (instead of dividing by the norm): whenever the raw
document vector is `v`, the document's score is
`dotQ v v * vsmDotQueryDoc qdict query v`. -/
theorem vsm_c_multiplies_by_squared_norm (lg : ℚ → ℚ) (dm : WeightScheme)
    (ix : FieldIndex) (idfs qdict : List (String × ℚ)) (query : List String)
    (doc : String) (v : List ℚ)
    (hc : dm.normComp = 'c')
    (hv : vsmDocVector lg dm ix idfs query doc = .ok v) :
    vsmDocScore lg dm ix idfs qdict query doc
      = .ok (dotQ v v * vsmDotQueryDoc qdict query v) := by
  rw [vsmDocScore, hv, ok_bind]
  simp only [hc, eq_self_iff_true, if_true]
  rw [vsmDotQueryDoc_map_mul]

/-- Witness for the C3 amended theorem on the `c3Index` scenario. -/
theorem vsm_c_multiplies_by_squared_norm_witness :
    vsmDocScore (fun _ => 0) schemeNNC c3Index [("a", 0), ("c", 0)]
      [("a", 1), ("c", 1)] ["a", "c"] "d1"
      = .ok (dotQ [1, 2] [1, 2] * vsmDotQueryDoc [("a", 1), ("c", 1)] ["a", "c"] [1, 2]) :=
  vsm_c_multiplies_by_squared_norm (fun _ => 0) schemeNNC c3Index
    [("a", 0), ("c", 0)] [("a", 1), ("c", 1)] ["a", "c"] "d1" [1, 2] rfl
    (by simp [vsmDocVector, vsmDocTermWeight, schemeNNC, c3Index, lookupA, List.find?, ok_bind])

end MIR
